import Mathlib

/-!
# Verification of the axin directive parser and weaver

A shallow embedding of the `axin` procedural-macro crate: the argument
parser (`src/args.rs`), the code generator (`src/generator.rs`) and the
entry point (`src/lib.rs`).  Host-language fragments that the crate treats
opaquely (paths, expressions, types, attributes, statement payloads) are
modelled as strings; the structures the crate itself builds and transforms
(function specs, directives, the generated statement list) are modelled
deeply so that the shape of the woven function can be stated and proved.
-/

namespace Axin

/-- A `syn::Path`, treated opaquely. -/
abbrev Path := String

/-- A `syn::Expr`, treated opaquely. -/
abbrev Expr := String

/-- A `syn::Type`, treated opaquely. -/
abbrev Ty := String

/-- A `syn::Attribute` attached to a function, treated opaquely. -/
abbrev Attr := String

/-- A `syn::Stmt`.  The crate inspects only whether a statement is an
expression statement and whether it carries a trailing semicolon
(`Stmt::Expr(expr, Option<Token![;]>)`); every other statement kind is
passed through opaquely. -/
inductive Stmt where
  | expr (e : Expr) (semi : Bool)
  | other (s : String)
deriving DecidableEq, Repr

/-- `FunctionSpec` from `src/args.rs`: a callable reference, either a bare
path or a path applied to a comma-separated argument list. -/
inductive FunctionSpec where
  | Simple (path : Path)
  | WithArgs (path : Path) (args : List Expr)
deriving DecidableEq, Repr

/-- A parameter binding pattern (`syn::Pat`): the generator only
distinguishes plain identifier patterns from everything else. -/
inductive Pat where
  | ident (name : String)
  | other (s : String)
deriving DecidableEq, Repr

/-- A `syn::FnArg`: a receiver (`self`) or a typed pattern. -/
inductive FnArg where
  | receiver
  | typed (pat : Pat) (ty : Ty)
deriving DecidableEq, Repr

/-- A function signature: name, inputs, and return type
(`none` models `ReturnType::Default`, i.e. the unit type). -/
structure Sig where
  name : String
  inputs : List FnArg
  output : Option Ty
deriving DecidableEq, Repr

/-- A `syn::ItemFn`: attributes, visibility, signature and body block. -/
structure ItemFn where
  attrs : List Attr
  vis : String
  sig : Sig
  block : List Stmt
deriving DecidableEq, Repr

/-- The callee position of a call emitted by the generator: a named
function path, a local binding (the inner `original_fn`), or a curried
producer `(path(args))` whose evaluation yields the callable. -/
inductive Callee where
  | path (p : Path)
  | var (name : String)
  | curried (p : Path) (args : List Expr)
deriving DecidableEq, Repr

/-- An argument position of a call emitted by the generator: a local
variable (a forwarded parameter or `original_fn`) or a
directive-supplied expression passed through verbatim. -/
inductive CallArg where
  | var (name : String)
  | litArg (e : Expr)
deriving DecidableEq, Repr

/-- A call expression emitted by the generator. -/
structure CallExpr where
  callee : Callee
  args : List CallArg
deriving DecidableEq, Repr

/-- Statements of the generated (woven) function body. -/
inductive GenStmt where
  | exprSemi (e : CallExpr)
  | letClosure (name : String) (inputs : List FnArg) (output : Option Ty) (body : List Stmt)
  | letBind (name : String) (e : CallExpr)
  | ret (name : String)
deriving DecidableEq, Repr

/-- The body of the function emitted by the macro: either the original
block re-emitted verbatim, or a freshly generated statement list. -/
inductive GenBody where
  | original (stmts : List Stmt)
  | woven (stmts : List GenStmt)
deriving DecidableEq, Repr

/-- The function emitted by the macro. -/
structure OutFn where
  attrs : List Attr
  vis : String
  sig : Sig
  body : GenBody
deriving DecidableEq, Repr

/-! ## Argument parsing (`src/args.rs`) -/

namespace param_names

/-- The "prologue" parameter name. -/
def PROLOGUE : String := "prologue"

/-- The "on_enter" parameter name. -/
def ON_ENTER : String := "on_enter"

/-- The "on_exit" parameter name. -/
def ON_EXIT : String := "on_exit"

/-- The "decorator" parameter name. -/
def DECORATOR : String := "decorator"

/-- All supported parameter names for error messages. -/
def ALL_PARAMS : List String := [PROLOGUE, ON_ENTER, ON_EXIT, DECORATOR]

end param_names

/-- One parsed clause of the attribute grammar (`AxinArg` in
`src/args.rs`). -/
inductive AxinArg where
  | Prologue (stmts : List Stmt)
  | OnEnter (funcs : List FunctionSpec)
  | OnExit (funcs : List FunctionSpec)
  | Decorator (func : FunctionSpec)
deriving DecidableEq, Repr

/-- Structured parse errors produced by `impl Parse for AxinArg`.  The
Rust code reports them as `syn::Error` message strings; the two shapes it
builds name the offending directive, and the unknown-directive message
additionally lists the supported names. -/
inductive AxinError where
  | EmptyHookList (directive : String)
  | MalformedFunctionSpec
  | UnknownDirective (name : String) (supported : List String)
deriving DecidableEq, Repr

/-- One raw `name(...)` clause before dispatch on the name.  The
parenthesized content is a token stream handed to one of three delegated
syn parsers depending on the directive name; each field records the
result that delegated parser would return on this content:
`stmtsContent` for `Block::parse_within`, `specListContent` for
`Punctuated::<FunctionSpec>::parse_terminated` (which accepts the empty
list), and `specContent` for a single `FunctionSpec`
(`none` when the content is not a single function spec). -/
structure RawDirective where
  name : String
  stmtsContent : List Stmt
  specListContent : List FunctionSpec
  specContent : Option FunctionSpec
deriving DecidableEq, Repr

/-- `impl Parse for AxinArg` (src/args.rs): dispatch on the directive
name, rejecting empty hook lists and unknown names. -/
def parseAxinArg (d : RawDirective) : Except AxinError AxinArg :=
  if d.name = param_names.PROLOGUE then
    .ok (.Prologue d.stmtsContent)
  else if d.name = param_names.ON_ENTER ∨ d.name = param_names.ON_EXIT then
    if d.specListContent.isEmpty then
      .error (.EmptyHookList d.name)
    else if d.name = param_names.ON_ENTER then
      .ok (.OnEnter d.specListContent)
    else
      .ok (.OnExit d.specListContent)
  else if d.name = param_names.DECORATOR then
    match d.specContent with
    | some f => .ok (.Decorator f)
    | none => .error .MalformedFunctionSpec
  else
    .error (.UnknownDirective d.name param_names.ALL_PARAMS)

/-- `impl Parse for AxinArgs` parses the comma-separated clause list via
`Punctuated::parse_terminated`, which stops at the first failing clause
and propagates that error. -/
def parseAxinArgs : List RawDirective → Except AxinError (List AxinArg)
  | [] => .ok []
  | d :: ds =>
    match parseAxinArg d with
    | .error e => .error e
    | .ok a =>
      match parseAxinArgs ds with
      | .error e => .error e
      | .ok rest => .ok (a :: rest)

/-! ## Directive accumulation (`process_attribute_args`, src/generator.rs) -/

/-- The tuple returned by `process_attribute_args`. -/
structure ProcessedArgs where
  prologue_stmts : List Stmt
  decorator_fn : Option FunctionSpec
  on_enter_funcs : List FunctionSpec
  on_exit_funcs : List FunctionSpec
deriving DecidableEq, Repr

/-- The per-statement normalization done in the `Prologue` arm of
`process_attribute_args`: a trailing expression without a semicolon
(`Stmt::Expr(expr, None)`) is converted into an expression statement with
an explicit semicolon; every other statement is pushed unchanged. -/
def normalizePrologueStmt : Stmt → Stmt
  | .expr e false => .expr e true
  | s => s

/-- One iteration of the `for arg in attribute_args` loop in
`process_attribute_args`: prologue statements are pushed one by one
(normalized), hook lists are extended, and the decorator slot is
overwritten. -/
def process_step (acc : ProcessedArgs) (arg : AxinArg) : ProcessedArgs :=
  match arg with
  | .Prologue stmts =>
    { acc with prologue_stmts := acc.prologue_stmts ++ stmts.map normalizePrologueStmt }
  | .OnEnter funcs =>
    { acc with on_enter_funcs := acc.on_enter_funcs ++ funcs }
  | .OnExit funcs =>
    { acc with on_exit_funcs := acc.on_exit_funcs ++ funcs }
  | .Decorator func =>
    { acc with decorator_fn := some func }

/-- `process_attribute_args` (src/generator.rs): a single left-to-right
pass over the parsed clauses, starting from empty accumulators. -/
def process_attribute_args (args : List AxinArg) : ProcessedArgs :=
  args.foldl process_step ⟨[], none, [], []⟩

/-! ## Code generation (`src/generator.rs`) -/

/-- `generate_function_call`: a `Simple` spec becomes `path()`, a
`WithArgs` spec becomes `path(args)`. -/
def generate_function_call (func_spec : FunctionSpec) : CallExpr :=
  match func_spec with
  | .Simple p => ⟨.path p, []⟩
  | .WithArgs p args => ⟨.path p, args.map .litArg⟩

/-- `generate_decorator_call`: `path(original_fn, args...)` for a simple
decorator, `(path(decorator_args))(original_fn, args...)` for a
parameterized one.  The Rust code special-cases the empty forwarding
list only to avoid a dangling comma in the token stream; both branches
denote the same call shape. -/
def generate_decorator_call (func_spec : FunctionSpec) (orig_args : List String) : CallExpr :=
  match func_spec with
  | .Simple p =>
    if orig_args.isEmpty then
      ⟨.path p, [.var "original_fn"]⟩
    else
      ⟨.path p, .var "original_fn" :: orig_args.map .var⟩
  | .WithArgs p args =>
    if orig_args.isEmpty then
      ⟨.curried p args, [.var "original_fn"]⟩
    else
      ⟨.curried p args, .var "original_fn" :: orig_args.map .var⟩

/-- The argument-collection pass at the top of
`generate_enhanced_function` (src/generator.rs lines 42-55): keep, in
declaration order, the identifier of every typed parameter bound by a
plain identifier pattern; receivers and non-identifier patterns yield
nothing. -/
def collect_forwarding_args (inputs : List FnArg) : List String :=
  inputs.filterMap fun arg =>
    match arg with
    | .typed (.ident n) _ => some n
    | _ => none

/-- `generate_enhanced_function` (src/generator.rs): build the woven
function by pushing statements onto `final_stmts` in source order. -/
def generate_enhanced_function (input_fn : ItemFn) (prologue_stmts : List Stmt)
    (decorator_fn : Option FunctionSpec)
    (on_enter_funcs on_exit_funcs : List FunctionSpec) : OutFn := Id.run do
  let args := collect_forwarding_args input_fn.sig.inputs
  -- Build the inner function body
  let mut inner_stmts : List Stmt := []
  inner_stmts := inner_stmts ++ prologue_stmts
  inner_stmts := inner_stmts ++ input_fn.block
  -- Build the final function body
  let mut final_stmts : List GenStmt := []
  -- Add on_enter calls (in order)
  for on_enter in on_enter_funcs do
    final_stmts := final_stmts ++ [.exprSemi (generate_function_call on_enter)]
  -- Define the inner original function
  final_stmts := final_stmts ++
    [.letClosure "original_fn" input_fn.sig.inputs input_fn.sig.output inner_stmts]
  -- Call decorator or directly call the original function
  match decorator_fn with
  | some decorator =>
    final_stmts := final_stmts ++ [.letBind "__result" (generate_decorator_call decorator args)]
  | none =>
    final_stmts := final_stmts ++ [.letBind "__result" ⟨.var "original_fn", args.map .var⟩]
  -- Add on_exit calls (in order)
  for on_exit in on_exit_funcs do
    final_stmts := final_stmts ++ [.exprSemi (generate_function_call on_exit)]
  -- Always return the result, even if it is unit
  final_stmts := final_stmts ++ [.ret "__result"]
  return { attrs := [], vis := input_fn.vis, sig := input_fn.sig, body := .woven final_stmts }

/-! ## Entry point (`src/lib.rs`) -/

/-- The `else` branch of the `axin` entry point: `quote! { #input_fn }`
re-emits the original item verbatim, attributes included. -/
def reemit (f : ItemFn) : OutFn :=
  { attrs := f.attrs, vis := f.vis, sig := f.sig, body := .original f.block }

/-- The `axin` attribute entry point (src/lib.rs): if the raw attribute
argument list is non-empty, parse it, accumulate the directives and
generate the enhanced function; otherwise re-emit the input unchanged. -/
def axin (args : List RawDirective) (input_fn : ItemFn) : Except AxinError OutFn :=
  if ¬ args.isEmpty then
    match parseAxinArgs args with
    | .error e => .error e
    | .ok parsed =>
      let p := process_attribute_args parsed
      .ok (generate_enhanced_function input_fn p.prologue_stmts p.decorator_fn
        p.on_enter_funcs p.on_exit_funcs)
  else
    .ok (reemit input_fn)

/-! ## Per-invocation trace semantics of the woven body

Each invocation of the woven function executes its statement list once,
top to bottom.  The events are the calls the generated code performs:
evaluating a curried callee `(path(args))` first calls the named path on
its literal arguments, then the resulting callable is called; defining
the inner closure and returning the bound result perform no calls. -/

/-- A call performed at runtime by the woven body. -/
inductive Event where
  | call (callee : Callee) (args : List CallArg)
deriving DecidableEq, Repr

/-- Calls performed while evaluating the callee position itself. -/
def Callee.events : Callee → List Event
  | .path _ => []
  | .var _ => []
  | .curried p args => [.call (.path p) (args.map .litArg)]

/-- Calls performed by one evaluation of a generated call expression:
first the callee position is evaluated, then the call itself happens. -/
def CallExpr.events (e : CallExpr) : List Event :=
  e.callee.events ++ [.call e.callee e.args]

/-- Calls performed by executing one generated statement. -/
def GenStmt.events : GenStmt → List Event
  | .exprSemi e => e.events
  | .letClosure _ _ _ _ => []
  | .letBind _ e => e.events
  | .ret _ => []

/-- The trace of one invocation of a woven body. -/
def invokeEvents (body : List GenStmt) : List Event :=
  (body.map GenStmt.events).flatten

/-- The trace of `k` successive invocations of a woven body. -/
def invocationsEvents (body : List GenStmt) : Nat → List Event
  | 0 => []
  | k + 1 => invokeEvents body ++ invocationsEvents body k

/-! ## Derived definitions and concrete sample inputs -/

/-- The result-binding expression chosen by `generate_enhanced_function`:
the decorator call when a decorator is present, otherwise a direct call
of the inner closure on the forwarded arguments. -/
def result_call (decorator_fn : Option FunctionSpec) (args : List String) : CallExpr :=
  match decorator_fn with
  | some decorator => generate_decorator_call decorator args
  | none => ⟨.var "original_fn", args.map .var⟩

/-- The statement list of a woven output body. -/
def wovenStmts (o : OutFn) : List GenStmt :=
  match o.body with
  | .woven stmts => stmts
  | .original _ => []

/-- The hook list contributed by an `OnEnter` clause. -/
def onEnterOf : AxinArg → Option (List FunctionSpec)
  | .OnEnter funcs => some funcs
  | _ => none

/-- The hook list contributed by an `OnExit` clause. -/
def onExitOf : AxinArg → Option (List FunctionSpec)
  | .OnExit funcs => some funcs
  | _ => none

/-- The statement list contributed by a `Prologue` clause. -/
def prologueOf : AxinArg → Option (List Stmt)
  | .Prologue stmts => some stmts
  | _ => none

/-- The spec contributed by a `Decorator` clause. -/
def decoratorOf : AxinArg → Option FunctionSpec
  | .Decorator func => some func
  | _ => none

/-- A sample annotated function: one attribute, one identifier-pattern
parameter and one tuple-pattern parameter. -/
def sampleFn : ItemFn :=
  { attrs := ["inline"]
    vis := "pub"
    sig := { name := "f"
             inputs := [.typed (.ident "n") "u32", .typed (.other "(a, b)") "(u32, u32)"]
             output := some "u32" }
    block := [.other "n + a + b"] }

/-- The raw clause `prologue()`: empty content, so `Block::parse_within`
yields no statements, `parse_terminated` yields an empty spec list, and a
single-spec parse fails. -/
def prologueEmptyDirective : RawDirective :=
  { name := "prologue", stmtsContent := [], specListContent := [], specContent := none }

/-- A raw clause `decorator(p)` for a bare path `p`. -/
def decoratorDirective (p : Path) : RawDirective :=
  { name := "decorator", stmtsContent := [.expr p false]
    specListContent := [.Simple p], specContent := some (.Simple p) }

/-- A raw clause `on_enter(p)` for a bare path `p`. -/
def onEnterDirective (p : Path) : RawDirective :=
  { name := "on_enter", stmtsContent := [.expr p false]
    specListContent := [.Simple p], specContent := some (.Simple p) }

/-! ## Helper lemmas -/

/-- Pushing one element per iteration of a `for` loop is mapping. -/
theorem forIn_push_eq_append_map {α β : Type} (xs : List α) (acc : List β) (f : α → β) :
    (forIn (m := Id) xs acc (fun x a => ForInStep.yield (a ++ [f x]))) = acc ++ xs.map f := by
  induction xs generalizing acc with
  | nil => simp
  | cons x xs ih => simp [ih]

/-- Structural form of the generator's output: the pushes onto
`final_stmts` amount to the concatenation of the five sections. -/
theorem generate_enhanced_function_eq (input_fn : ItemFn) (prologue_stmts : List Stmt)
    (decorator_fn : Option FunctionSpec) (en ex : List FunctionSpec) :
    generate_enhanced_function input_fn prologue_stmts decorator_fn en ex =
      { attrs := []
        vis := input_fn.vis
        sig := input_fn.sig
        body := .woven (
          en.map (fun f => .exprSemi (generate_function_call f))
          ++ [.letClosure "original_fn" input_fn.sig.inputs input_fn.sig.output
                (prologue_stmts ++ input_fn.block)]
          ++ [.letBind "__result"
                (result_call decorator_fn (collect_forwarding_args input_fn.sig.inputs))]
          ++ ex.map (fun f => .exprSemi (generate_function_call f))
          ++ [.ret "__result"]) } := by
  cases decorator_fn with
  | none =>
    simp [generate_enhanced_function, Id.run, forIn_push_eq_append_map, result_call]
  | some d =>
    simp [generate_enhanced_function, Id.run, forIn_push_eq_append_map, result_call]

theorem foldl_process_step_on_enter (args : List AxinArg) (acc : ProcessedArgs) :
    (args.foldl process_step acc).on_enter_funcs =
      acc.on_enter_funcs ++ (args.filterMap onEnterOf).flatten := by
  induction args generalizing acc with
  | nil => simp
  | cons a args ih =>
    cases a <;> simp [process_step, onEnterOf, ih]

theorem foldl_process_step_on_exit (args : List AxinArg) (acc : ProcessedArgs) :
    (args.foldl process_step acc).on_exit_funcs =
      acc.on_exit_funcs ++ (args.filterMap onExitOf).flatten := by
  induction args generalizing acc with
  | nil => simp
  | cons a args ih =>
    cases a <;> simp [process_step, onExitOf, ih]

theorem foldl_process_step_prologue (args : List AxinArg) (acc : ProcessedArgs) :
    (args.foldl process_step acc).prologue_stmts =
      acc.prologue_stmts ++ ((args.filterMap prologueOf).flatten).map normalizePrologueStmt := by
  induction args generalizing acc with
  | nil => simp
  | cons a args ih =>
    cases a <;> simp [process_step, prologueOf, ih]

theorem getLast?_cons_eq_or {α : Type} (l : List α) (x : α) :
    (x :: l).getLast? = (l.getLast?).or (some x) := by
  cases hl : l with
  | nil => simp
  | cons y ys =>
    rw [List.getLast?_cons_cons]
    cases h : (y :: ys).getLast? with
    | none => simp [List.getLast?_eq_none_iff] at h
    | some z => simp [Option.or]

theorem foldl_process_step_decorator (args : List AxinArg) (acc : ProcessedArgs) :
    (args.foldl process_step acc).decorator_fn =
      ((args.filterMap decoratorOf).getLast?).or acc.decorator_fn := by
  induction args generalizing acc with
  | nil => simp
  | cons a args ih =>
    cases a with
    | Prologue stmts => simpa [process_step, decoratorOf] using ih _
    | OnEnter funcs => simpa [process_step, decoratorOf] using ih _
    | OnExit funcs => simpa [process_step, decoratorOf] using ih _
    | Decorator func =>
      rw [List.foldl_cons]
      rw [show process_step acc (.Decorator func) =
        { acc with decorator_fn := some func } from rfl]
      rw [ih]
      rw [show (AxinArg.Decorator func :: args).filterMap decoratorOf =
        func :: args.filterMap decoratorOf from rfl]
      rw [getLast?_cons_eq_or]
      cases (args.filterMap decoratorOf).getLast? <;> simp [Option.or]

theorem parseAxinArgs_error_of_mem (ds : List RawDirective) (d : RawDirective)
    (hd : d ∈ ds) (he : ∃ e, parseAxinArg d = .error e) :
    ∃ e, parseAxinArgs ds = .error e := by
  induction ds with
  | nil => cases hd
  | cons r rest ih =>
    rcases List.mem_cons.mp hd with h | h
    · obtain ⟨e, he⟩ := he
      exact ⟨e, by rw [h] at he; simp [parseAxinArgs, he]⟩
    · cases hr : parseAxinArg r with
      | error e => exact ⟨e, by simp [parseAxinArgs, hr]⟩
      | ok a =>
        obtain ⟨e, hrest⟩ := ih h
        exact ⟨e, by simp [parseAxinArgs, hr, hrest]⟩

theorem invokeEvents_nil : invokeEvents [] = [] := rfl

theorem invokeEvents_cons (s : GenStmt) (rest : List GenStmt) :
    invokeEvents (s :: rest) = GenStmt.events s ++ invokeEvents rest := by
  simp [invokeEvents]

theorem invokeEvents_append (xs ys : List GenStmt) :
    invokeEvents (xs ++ ys) = invokeEvents xs ++ invokeEvents ys := by
  simp [invokeEvents]

theorem count_single_event (t e : Event) (hne : e ≠ t) :
    ([e] : List Event).count t = 0 := by
  rw [List.count_eq_zero]
  simp [Ne.symm hne]

theorem count_hookcall_events (D : Path) (dargs : List Expr) (l : List FunctionSpec)
    (h : ∀ f ∈ l, generate_function_call f ≠ (⟨.path D, dargs.map .litArg⟩ : CallExpr)) :
    (invokeEvents (l.map fun f => .exprSemi (generate_function_call f))).count
      (Event.call (.path D) (dargs.map .litArg)) = 0 := by
  induction l with
  | nil => simp [invokeEvents]
  | cons f fs ih =>
    have hf := h f (List.mem_cons_self f fs)
    rw [List.map_cons, invokeEvents_cons, List.count_append,
      ih (fun g hg => h g (List.mem_cons_of_mem _ hg)), Nat.add_zero]
    cases f with
    | Simple q =>
      rw [show GenStmt.events (.exprSemi (generate_function_call (.Simple q))) =
        [Event.call (.path q) []] from rfl]
      refine count_single_event _ _ (fun hc => hf ?_)
      injection hc with h1 h2
      simp only [generate_function_call]
      rw [← h2, h1]
    | WithArgs q qargs =>
      rw [show GenStmt.events (.exprSemi (generate_function_call (.WithArgs q qargs))) =
        [Event.call (.path q) (qargs.map .litArg)] from rfl]
      refine count_single_event _ _ (fun hc => hf ?_)
      injection hc with h1 h2
      simp only [generate_function_call]
      rw [h1, h2]

theorem wovenStmts_mk (a : List Attr) (v : String) (s : Sig) (l : List GenStmt) :
    wovenStmts ⟨a, v, s, .woven l⟩ = l := rfl

theorem invokeEvents_letClosure (n : String) (i : List FnArg) (o : Option Ty) (b : List Stmt) :
    invokeEvents [GenStmt.letClosure n i o b] = [] := rfl

theorem invokeEvents_ret (n : String) : invokeEvents [GenStmt.ret n] = [] := rfl

theorem invokeEvents_letBind (n : String) (e : CallExpr) :
    invokeEvents [GenStmt.letBind n e] = CallExpr.events e := by
  simp [invokeEvents, GenStmt.events]

theorem result_call_some (d : FunctionSpec) (args : List String) :
    result_call (some d) args = generate_decorator_call d args := rfl

theorem count_curried_decorator_events (D : Path) (dargs : List Expr) (fwd : List String) :
    (CallExpr.events (generate_decorator_call (.WithArgs D dargs) fwd)).count
      (Event.call (.path D) (dargs.map .litArg)) = 1 := by
  cases fwd with
  | nil =>
    rw [show CallExpr.events (generate_decorator_call (.WithArgs D dargs) []) =
      [Event.call (.path D) (dargs.map .litArg),
       Event.call (.curried D dargs) [CallArg.var "original_fn"]] from rfl]
    rw [List.count_cons_self, count_single_event _ _ (by intro hc; cases hc)]
  | cons a as =>
    rw [show CallExpr.events (generate_decorator_call (.WithArgs D dargs) (a :: as)) =
      [Event.call (.path D) (dargs.map .litArg),
       Event.call (.curried D dargs) (.var "original_fn" :: (a :: as).map .var)] from rfl]
    rw [List.count_cons_self, count_single_event _ _ (by intro hc; cases hc)]

theorem invoke_count_curried (fn : ItemFn) (p0 : List Stmt) (en ex : List FunctionSpec)
    (D : Path) (dargs : List Expr)
    (h : ∀ f ∈ en ++ ex, generate_function_call f ≠ (⟨.path D, dargs.map .litArg⟩ : CallExpr)) :
    (invokeEvents (wovenStmts
        (generate_enhanced_function fn p0 (some (.WithArgs D dargs)) en ex))).count
      (Event.call (.path D) (dargs.map .litArg)) = 1 := by
  have hen : ∀ f ∈ en, generate_function_call f ≠ (⟨.path D, dargs.map .litArg⟩ : CallExpr) :=
    fun f hf => h f (List.mem_append_left _ hf)
  have hex : ∀ f ∈ ex, generate_function_call f ≠ (⟨.path D, dargs.map .litArg⟩ : CallExpr) :=
    fun f hf => h f (List.mem_append_right _ hf)
  rw [generate_enhanced_function_eq, wovenStmts_mk]
  rw [invokeEvents_append, invokeEvents_append, invokeEvents_append, invokeEvents_append]
  rw [List.count_append, List.count_append, List.count_append, List.count_append]
  rw [count_hookcall_events D dargs en hen, count_hookcall_events D dargs ex hex]
  rw [invokeEvents_letClosure, invokeEvents_ret, invokeEvents_letBind, result_call_some]
  rw [count_curried_decorator_events]
  rfl

theorem invocations_count_curried (fn : ItemFn) (p0 : List Stmt) (en ex : List FunctionSpec)
    (D : Path) (dargs : List Expr) (k : Nat)
    (h : ∀ f ∈ en ++ ex, generate_function_call f ≠ (⟨.path D, dargs.map .litArg⟩ : CallExpr)) :
    (invocationsEvents (wovenStmts
        (generate_enhanced_function fn p0 (some (.WithArgs D dargs)) en ex)) k).count
      (Event.call (.path D) (dargs.map .litArg)) = k := by
  induction k with
  | zero => rfl
  | succ k ih =>
    rw [invocationsEvents, List.count_append, ih, invoke_count_curried fn p0 en ex D dargs h]
    omega

/-! ## Claim theorems -/

/-- C1: for every function and every directive set, the woven function's
body is, in this exact order: one call statement per entry hook in
accumulated order (return values discarded), the definition of the inner
core callable whose body is the prologue statements followed by the
original body's statements, the core-or-decorator call bound to the
single result value `__result`, one call statement per exit hook in
accumulated order, and a return of the bound result — with no condition
on the declared return type, so this includes the unit case. -/
theorem woven_body_structure (fn : ItemFn) (prologue_stmts : List Stmt)
    (decorator_fn : Option FunctionSpec) (en ex : List FunctionSpec) :
    (generate_enhanced_function fn prologue_stmts decorator_fn en ex).body =
      .woven (en.map (fun f => .exprSemi (generate_function_call f))
        ++ [.letClosure "original_fn" fn.sig.inputs fn.sig.output
              (prologue_stmts ++ fn.block)]
        ++ [.letBind "__result"
              (result_call decorator_fn (collect_forwarding_args fn.sig.inputs))]
        ++ ex.map (fun f => .exprSemi (generate_function_call f))
        ++ [.ret "__result"]) := by
  rw [generate_enhanced_function_eq]

/-- C2: the accumulated `entry_hooks` list is the left-to-right
concatenation of every `OnEnter` group's list (and likewise for
`OnExit`); in particular `on_enter(A), on_enter(B, C)` accumulates to
`[A, B, C]`, and the woven body executes those three hook calls in that
order. -/
theorem hook_accumulation_order (args : List AxinArg) (A B C : FunctionSpec) :
    (process_attribute_args args).on_enter_funcs = (args.filterMap onEnterOf).flatten ∧
    (process_attribute_args args).on_exit_funcs = (args.filterMap onExitOf).flatten ∧
    (process_attribute_args [.OnEnter [A], .OnEnter [B, C]]).on_enter_funcs = [A, B, C] ∧
    wovenStmts (generate_enhanced_function sampleFn [] none [A, B, C] []) =
      [.exprSemi (generate_function_call A), .exprSemi (generate_function_call B),
       .exprSemi (generate_function_call C)]
      ++ [.letClosure "original_fn" sampleFn.sig.inputs sampleFn.sig.output sampleFn.block,
          .letBind "__result" ⟨.var "original_fn", [.var "n"]⟩,
          .ret "__result"] := by
  refine ⟨?_, ?_, rfl, rfl⟩
  · simpa [process_attribute_args] using foldl_process_step_on_enter args ⟨[], none, [], []⟩
  · simpa [process_attribute_args] using foldl_process_step_on_exit args ⟨[], none, [], []⟩

/-- C3 counterexample: the raw clause `prologue()` yields an entirely
empty directive set (no prologue statements, no hooks, no decorator),
yet weaving does not return the original function unchanged: the entry
point's fast path tests emptiness of the raw argument list, so this
input goes through the general path, which drops the function's
attributes and rebuilds the body around an inner closure that is called
without the tuple-pattern parameter. -/
theorem empty_directive_set_not_identity :
    parseAxinArgs [prologueEmptyDirective] = .ok [.Prologue []] ∧
    process_attribute_args [.Prologue []] = ⟨[], none, [], []⟩ ∧
    axin [prologueEmptyDirective] sampleFn = .ok
      { attrs := [], vis := "pub", sig := sampleFn.sig
        body := .woven [
          .letClosure "original_fn" sampleFn.sig.inputs sampleFn.sig.output sampleFn.block,
          .letBind "__result" ⟨.var "original_fn", [.var "n"]⟩,
          .ret "__result"] } ∧
    ({ attrs := [], vis := "pub", sig := sampleFn.sig
       body := .woven [
         .letClosure "original_fn" sampleFn.sig.inputs sampleFn.sig.output sampleFn.block,
         .letBind "__result" ⟨.var "original_fn", [.var "n"]⟩,
         .ret "__result"] } : OutFn) ≠ reemit sampleFn := by
  refine ⟨rfl, rfl, rfl, ?_⟩
  intro hc
  exact absurd (congrArg OutFn.attrs hc) (by decide)

/-- C3 amended: the identity fast path applies exactly when the raw
attribute argument list is empty (no directives written at all); then
the original function is re-emitted unchanged, attributes included.  A
directive list that merely accumulates to an empty directive set (such
as `prologue()`) instead goes through the general weaving path. -/
theorem empty_args_identity (fn : ItemFn) :
    axin [] fn = .ok (reemit fn) ∧
    reemit fn = { attrs := fn.attrs, vis := fn.vis, sig := fn.sig
                  body := .original fn.block } :=
  ⟨rfl, rfl⟩

/-- C5: the forwarding arguments are exactly the names of parameters
bound by a plain identifier pattern, in declaration order; receivers and
non-identifier patterns contribute nothing, and the result-binding call
of the woven body forwards exactly this list. -/
theorem forwarding_args_identifier_only (xs ys : List FnArg) (n : String) (t t' : Ty)
    (pt : String) (fn : ItemFn) (p0 : List Stmt) (d : Option FunctionSpec)
    (en ex : List FunctionSpec) :
    collect_forwarding_args (xs ++ ys) =
      collect_forwarding_args xs ++ collect_forwarding_args ys ∧
    collect_forwarding_args [.typed (.ident n) t] = [n] ∧
    collect_forwarding_args [.typed (.other pt) t'] = [] ∧
    collect_forwarding_args [.receiver] = [] ∧
    wovenStmts (generate_enhanced_function fn p0 d en ex) =
      (en.map fun f => .exprSemi (generate_function_call f))
      ++ [.letClosure "original_fn" fn.sig.inputs fn.sig.output (p0 ++ fn.block)]
      ++ [.letBind "__result" (result_call d (collect_forwarding_args fn.sig.inputs))]
      ++ (ex.map fun f => .exprSemi (generate_function_call f))
      ++ [.ret "__result"] := by
  refine ⟨?_, rfl, rfl, rfl, ?_⟩
  · simp [collect_forwarding_args]
  · rw [generate_enhanced_function_eq, wovenStmts_mk]

/-- C6 counterexample: two `decorator(...)` directives on one function
do not fail: parsing succeeds, processing silently keeps the second
decorator, and a woven function is produced. -/
theorem double_decorator_no_error :
    parseAxinArgs [decoratorDirective "A", decoratorDirective "B"] =
      .ok [.Decorator (.Simple "A"), .Decorator (.Simple "B")] ∧
    (process_attribute_args
      [.Decorator (.Simple "A"), .Decorator (.Simple "B")]).decorator_fn =
      some (.Simple "B") ∧
    axin [decoratorDirective "A", decoratorDirective "B"] sampleFn =
      .ok (generate_enhanced_function sampleFn [] (some (.Simple "B")) [] []) :=
  ⟨rfl, rfl, rfl⟩

/-- C6 amended: a second `Decorator` directive is not an error; the
decorator slot is last-write-wins, and a woven function is produced
using the last decorator directive. -/
theorem decorator_last_write_wins (args : List AxinArg) (fn : ItemFn) :
    (process_attribute_args args).decorator_fn = (args.filterMap decoratorOf).getLast? ∧
    axin [decoratorDirective "A", decoratorDirective "B"] fn =
      .ok (generate_enhanced_function fn [] (some (.Simple "B")) [] []) := by
  constructor
  · simpa [process_attribute_args] using foldl_process_step_decorator args ⟨[], none, [], []⟩
  · rfl

/-- C7 counterexample: with two prologue directives the accumulated
prologue is the concatenation of both statement groups, not the second
group alone; the first group's statement does appear in the woven body's
inner closure. -/
theorem double_prologue_concatenates :
    (process_attribute_args
      [.Prologue [.other "sA"], .Prologue [.other "sB"]]).prologue_stmts =
      [.other "sA", .other "sB"] ∧
    (process_attribute_args
      [.Prologue [.other "sA"], .Prologue [.other "sB"]]).prologue_stmts ≠
      [.other "sB"] ∧
    wovenStmts (generate_enhanced_function sampleFn
        (process_attribute_args
          [.Prologue [.other "sA"], .Prologue [.other "sB"]]).prologue_stmts
        none [] []) =
      [.letClosure "original_fn" sampleFn.sig.inputs sampleFn.sig.output
         ([.other "sA", .other "sB"] ++ sampleFn.block),
       .letBind "__result" ⟨.var "original_fn", [.var "n"]⟩,
       .ret "__result"] := by
  refine ⟨rfl, by decide, rfl⟩

/-- C7 amended: the accumulated prologue statement sequence equals the
left-to-right concatenation of every prologue directive's (normalized)
statements; in particular two prologue directives yield the first
group's statements followed by the second group's. -/
theorem prologue_concatenation (args : List AxinArg) :
    (process_attribute_args args).prologue_stmts =
      ((args.filterMap prologueOf).flatten).map normalizePrologueStmt ∧
    (process_attribute_args
      [.Prologue [.other "sA"], .Prologue [.other "sB"]]).prologue_stmts =
      [.other "sA"] ++ [.other "sB"] := by
  constructor
  · simpa [process_attribute_args] using foldl_process_step_prologue args ⟨[], none, [], []⟩
  · rfl

/-- C8: an `on_enter` or `on_exit` directive with an empty function-spec
list fails with an `EmptyHookList`-style error naming the offending
directive, and any directive list containing such a clause fails as a
whole, producing no directive set. -/
theorem empty_hook_list_rejected (d : RawDirective) (pre post : List RawDirective)
    (hname : d.name = param_names.ON_ENTER ∨ d.name = param_names.ON_EXIT)
    (hempty : d.specListContent = []) :
    parseAxinArg d = .error (.EmptyHookList d.name) ∧
    ∃ e, parseAxinArgs (pre ++ d :: post) = .error e := by
  have h1 : parseAxinArg d = .error (.EmptyHookList d.name) := by
    unfold parseAxinArg
    rcases hname with h | h <;> rw [h, hempty] <;> rfl
  exact ⟨h1, parseAxinArgs_error_of_mem _ d (by simp) ⟨_, h1⟩⟩

/-- C8 witness: `on_enter()` at a concrete raw clause. -/
theorem empty_hook_list_rejected_witness :
    parseAxinArg ⟨"on_enter", [], [], none⟩ =
      .error (.EmptyHookList "on_enter") ∧
    ∃ e, parseAxinArgs ([] ++ ⟨"on_enter", [], [], none⟩ :: []) = .error e :=
  empty_hook_list_rejected ⟨"on_enter", [], [], none⟩ [] [] (Or.inl rfl) rfl

/-- C9: a directive whose name is none of the four supported ones fails
with an unknown-directive error carrying the offending name and exactly
the supported list `prologue, on_enter, on_exit, decorator`. -/
theorem unknown_directive_rejected (d : RawDirective)
    (h : d.name ∉ param_names.ALL_PARAMS) :
    parseAxinArg d = .error (.UnknownDirective d.name param_names.ALL_PARAMS) ∧
    param_names.ALL_PARAMS = ["prologue", "on_enter", "on_exit", "decorator"] := by
  have h1 : ¬ d.name = param_names.PROLOGUE :=
    fun hc => h (by rw [hc]; simp [param_names.ALL_PARAMS])
  have h2 : ¬ d.name = param_names.ON_ENTER :=
    fun hc => h (by rw [hc]; simp [param_names.ALL_PARAMS])
  have h3 : ¬ d.name = param_names.ON_EXIT :=
    fun hc => h (by rw [hc]; simp [param_names.ALL_PARAMS])
  have h4 : ¬ d.name = param_names.DECORATOR :=
    fun hc => h (by rw [hc]; simp [param_names.ALL_PARAMS])
  refine ⟨?_, rfl⟩
  unfold parseAxinArg
  rw [if_neg h1, if_neg (fun hc => hc.elim h2 h3), if_neg h4]

/-- C9 witness: `foo(bar)` at a concrete raw clause. -/
theorem unknown_directive_rejected_witness :
    parseAxinArg ⟨"foo", [], [.Simple "bar"], some (.Simple "bar")⟩ =
      .error (.UnknownDirective "foo" param_names.ALL_PARAMS) ∧
    param_names.ALL_PARAMS = ["prologue", "on_enter", "on_exit", "decorator"] :=
  unknown_directive_rejected ⟨"foo", [], [.Simple "bar"], some (.Simple "bar")⟩ (by decide)

/-- C4: a `Simple(path)` decorator is invoked with the core callable as
first argument followed by the forwarding arguments; a
`WithArgs(path, args)` decorator first evaluates `path(args)` to obtain
a callable, then invokes it with the core callable first and the
forwarding arguments after; and that evaluation of `path(args)` happens
exactly once per invocation of the woven function — `k` invocations
perform it `k` times, so it is never cached across invocations (the
hypothesis only excludes hooks that textually make the very same call). -/
theorem decorator_call_shape_and_freshness (fn : ItemFn) (p0 : List Stmt)
    (en ex : List FunctionSpec) (P D : Path) (as dargs : List Expr)
    (fwd : List String) (k : Nat)
    (h : ∀ f ∈ en ++ ex,
      generate_function_call f ≠ (⟨.path D, dargs.map .litArg⟩ : CallExpr)) :
    generate_decorator_call (.Simple P) fwd =
      (⟨.path P, .var "original_fn" :: fwd.map .var⟩ : CallExpr) ∧
    generate_decorator_call (.WithArgs P as) fwd =
      (⟨.curried P as, .var "original_fn" :: fwd.map .var⟩ : CallExpr) ∧
    CallExpr.events (generate_decorator_call (.WithArgs P as) fwd) =
      [.call (.path P) (as.map .litArg),
       .call (.curried P as) (.var "original_fn" :: fwd.map .var)] ∧
    (invocationsEvents (wovenStmts
        (generate_enhanced_function fn p0 (some (.WithArgs D dargs)) en ex)) k).count
      (Event.call (.path D) (dargs.map .litArg)) = k := by
  refine ⟨?_, ?_, ?_, invocations_count_curried fn p0 en ex D dargs k h⟩
  · cases fwd <;> rfl
  · cases fwd <;> rfl
  · cases fwd <;> rfl

/-- C4 witness: a concrete curried decorator `Dec("cfg")` on `sampleFn`
with one entry hook; two invocations evaluate `Dec("cfg")` twice. -/
theorem decorator_call_shape_and_freshness_witness :
    generate_decorator_call (.Simple "P") ["n"] =
      (⟨.path "P", [.var "original_fn", .var "n"]⟩ : CallExpr) ∧
    generate_decorator_call (.WithArgs "P" ["x"]) ["n"] =
      (⟨.curried "P" ["x"], [.var "original_fn", .var "n"]⟩ : CallExpr) ∧
    CallExpr.events (generate_decorator_call (.WithArgs "P" ["x"]) ["n"]) =
      [.call (.path "P") [.litArg "x"],
       .call (.curried "P" ["x"]) [.var "original_fn", .var "n"]] ∧
    (invocationsEvents (wovenStmts
        (generate_enhanced_function sampleFn []
          (some (.WithArgs "Dec" ["cfg"])) [.Simple "hookA"] [])) 2).count
      (Event.call (.path "Dec") [.litArg "cfg"]) = 2 :=
  decorator_call_shape_and_freshness sampleFn [] [.Simple "hookA"] []
    "P" "Dec" ["x"] ["cfg"] ["n"] 2 (by decide)

/-- C10: when the attribute argument list is non-empty, the emitted
function carries no attributes (everything beyond visibility, signature
and the new body is dropped); when it is empty, the function is
re-emitted whole, attributes intact. -/
theorem attrs_dropped_iff_args_nonempty (args : List RawDirective) (fn : ItemFn)
    (out : OutFn) (h : axin args fn = .ok out) :
    (args = [] → out = reemit fn) ∧
    (args ≠ [] → out.attrs = [] ∧ out.vis = fn.vis ∧ out.sig = fn.sig ∧
      ∃ stmts, out.body = .woven stmts) := by
  cases args with
  | nil =>
    refine ⟨fun _ => ?_, fun hne => absurd rfl hne⟩
    have h0 : Except.ok (reemit fn) = Except.ok (ε := AxinError) out := h
    exact (Except.ok.inj h0).symm
  | cons a rest =>
    refine ⟨fun hc => (List.cons_ne_nil a rest hc).elim, fun _ => ?_⟩
    unfold axin at h
    rw [if_pos (by simp)] at h
    cases hp : parseAxinArgs (a :: rest) with
    | error e => rw [hp] at h; cases h
    | ok parsed =>
      simp only [hp] at h
      have hout := Except.ok.inj h
      rw [← hout, generate_enhanced_function_eq]
      exact ⟨rfl, rfl, rfl, _, rfl⟩

/-- C10 witness: a single `on_enter(A)` directive on `sampleFn` drops
its `inline` attribute but keeps visibility and signature. -/
theorem attrs_dropped_iff_args_nonempty_witness :
    (generate_enhanced_function sampleFn [] none [.Simple "A"] []).attrs = [] ∧
    (generate_enhanced_function sampleFn [] none [.Simple "A"] []).vis = sampleFn.vis ∧
    (generate_enhanced_function sampleFn [] none [.Simple "A"] []).sig = sampleFn.sig ∧
    ∃ stmts, (generate_enhanced_function sampleFn [] none [.Simple "A"] []).body =
      .woven stmts :=
  (attrs_dropped_iff_args_nonempty [onEnterDirective "A"] sampleFn
    (generate_enhanced_function sampleFn [] none [.Simple "A"] []) rfl).2 (by simp)

end Axin
